import Mathlib

/-!
# Verification of the Emgu CV super-resolution C shim

Shallow embedding of `src/Emgu.CV.Extern/superres/superres_c.h`, the flat
C-callable surface over the wrapped library's super-resolution module:

* `cvSuperresCreateFrameSourceVideo (fileName, useGpu) → FrameSource*`
* `cvSuperresCreateFrameSourceCamera (deviceId) → FrameSource*`
* `cvSuperresFrameSourceRelease (FrameSource**)`
* `cvSuperresFrameSourceNextFrame (FrameSource*, Mat*)`
* `cvSuperResolutionCreate (type, FrameSource*, FrameSource**) → SuperResolution*`
* `cvSuperResolutionRelease (SuperResolution**)`

The repository contains only the header (declarations); the translation
units implementing these entry points are not part of the source tree, so
the bodies below are modelled from the specification, faithful to the
declared signatures.  The wrapped library (frame decoding, algorithm
selection, upscaling) is opaque at this boundary and is represented by an
oracle structure `ExtLib`; the binding layer's state (which native objects
are alive) is an explicit `LibState` threaded through every call.
-/

namespace Superres

/-- A handle to a native object as seen by a caller of the C surface; `0`
plays the role of the null pointer.  Handles are allocated from a
monotonically increasing counter, so a destroyed handle value is never
handed out again. -/
abbrev Handle := Nat

/-- The contents of one image frame.  The image-matrix format belongs to
the wrapped library and is opaque to the binding layer, so a frame is an
abstract list of pixel words. -/
abbrev Frame := List Nat

/-- An error value signalled by the wrapped library through its own error
channel.  The binding layer defines no error types of its own and treats
these values as opaque. -/
structure ExtErr where
  code : Int
deriving DecidableEq, Repr

/-- The native state behind a frame-source handle: the frames still to be
delivered by successive `nextFrame` pulls. -/
structure FrameSourceData where
  frames : List Frame
deriving DecidableEq, Repr

/-- The native state behind a super-resolution processor handle: the
algorithm tag it was created with, the input frame source it is bound to,
and the output frame source it handed back to the caller. -/
structure SuperResData where
  algoType : Int
  input : Handle
  output : Handle
deriving DecidableEq, Repr

/-- The caller-visible state of the binding layer: the live frame-source
objects, the live processor objects (both as association lists keyed by
handle), and the next fresh handle value. -/
structure LibState where
  frameSources : List (Handle × FrameSourceData)
  processors : List (Handle × SuperResData)
  nextHandle : Handle
deriving DecidableEq, Repr

/-- Look a key up in an association list of handles. -/
def findIn (h : Handle) : List (Handle × α) → Option α
  | [] => none
  | p :: ps => if p.1 = h then some p.2 else findIn h ps

/-- Remove every entry with the given key from an association list. -/
def removeIn (h : Handle) : List (Handle × α) → List (Handle × α)
  | [] => []
  | p :: ps => if p.1 = h then removeIn h ps else p :: removeIn h ps

/-- Replace the value stored at the given key, keeping the key set. -/
def setIn (h : Handle) (a : α) : List (Handle × α) → List (Handle × α)
  | [] => []
  | p :: ps => if p.1 = h then (h, a) :: setIn h a ps else p :: setIn h a ps

/-- The keys of an association list. -/
def keysOf (l : List (Handle × α)) : List Handle := l.map Prod.fst

/-- The outcome of one call into the C surface.  `ok` carries the values
the call hands back (return value, data written through out-parameters,
and the successor library state); `fail` carries an error signalled by the
wrapped library, propagated unchanged; `undefined` marks a contract violation
(an operation applied to a handle that is not alive), which the spec
classifies as undefined behaviour that must never silently succeed. -/
inductive CallResult (α : Type) where
  | ok : α → CallResult α
  | fail : ExtErr → CallResult α
  | undefined : CallResult α
deriving DecidableEq, Repr

/-- The wrapped computer-vision library, opaque to the binding layer and
represented by oracles: opening a video file or a camera device (either
yields the stream of frames or an error), validating an algorithm type
tag (`none` when the tag selects a supported implementation), the
upscaling transformation itself, and the frame-pulling behaviour of a
frame source (how one `nextFrame` step transforms the native object). -/
structure ExtLib where
  openVideo : String → Bool → Except ExtErr (List Frame)
  openCamera : Int → Except ExtErr (List Frame)
  selectAlgo : Int → Option ExtErr
  upscale : Frame → Frame
  pullFrame : FrameSourceData → Except ExtErr (Frame × FrameSourceData)

/-- The reference frame-pulling behaviour: deliver the frames in order,
and at end-of-stream write an empty frame, leaving the source exhausted
(the concrete end-of-stream behaviour the spec cites for the wrapped
library). -/
def stdPull : FrameSourceData → Except ExtErr (Frame × FrameSourceData)
  | ⟨[]⟩ => .ok ([], ⟨[]⟩)
  | ⟨f :: r⟩ => .ok (f, ⟨r⟩)

/-- The library state before any handle has been created: no live
objects, first fresh handle `1` (so `0` stays the null pointer). -/
def initState : LibState := ⟨[], [], 1⟩

/-- Modelled from the spec: the translation unit implementing
`cvSuperresCreateFrameSourceVideo` is not in the source tree (the header
declares `FrameSource* cvSuperresCreateFrameSourceVideo(const char*, bool)`).
Per spec §4.1, the call asks the wrapped library to open the video file
(the GPU flag is a hint passed through); an error from the library is
propagated unchanged, otherwise a fresh non-null frame-source handle is
returned. -/
def cvSuperresCreateFrameSourceVideo (L : ExtLib) (fileName : String)
    (useGpu : Bool) (s : LibState) : CallResult (Handle × LibState) :=
  match L.openVideo fileName useGpu with
  | .error e => .fail e
  | .ok frames =>
      .ok (s.nextHandle,
        ⟨(s.nextHandle, ⟨frames⟩) :: s.frameSources, s.processors,
         s.nextHandle + 1⟩)

/-- Modelled from the spec: the translation unit implementing
`cvSuperresCreateFrameSourceCamera` is not in the source tree (the header
declares `FrameSource* cvSuperresCreateFrameSourceCamera(int)`).  Per
spec §4.1, the call asks the wrapped library to open the capture device;
an error is propagated unchanged, otherwise a fresh non-null
frame-source handle is returned. -/
def cvSuperresCreateFrameSourceCamera (L : ExtLib) (deviceId : Int)
    (s : LibState) : CallResult (Handle × LibState) :=
  match L.openCamera deviceId with
  | .error e => .fail e
  | .ok frames =>
      .ok (s.nextHandle,
        ⟨(s.nextHandle, ⟨frames⟩) :: s.frameSources, s.processors,
         s.nextHandle + 1⟩)

/-- Modelled from the spec: the translation unit implementing
`cvSuperresFrameSourceRelease` is not in the source tree (the header
declares `void cvSuperresFrameSourceRelease(FrameSource**)`).  Per spec
§4.1, the call destroys the native frame source and writes the null
handle through the pointer-to-handle; the returned `Handle` is the value
written back into the caller's handle variable.  Using a handle that is
not alive is a contract violation (`undefined`). -/
def cvSuperresFrameSourceRelease (h : Handle) (s : LibState) :
    CallResult (Handle × LibState) :=
  match findIn h s.frameSources with
  | none => .undefined
  | some _ => .ok (0, ⟨removeIn h s.frameSources, s.processors, s.nextHandle⟩)

/-- Modelled from the spec: the translation unit implementing
`cvSuperresFrameSourceNextFrame` is not in the source tree (the header
declares `void cvSuperresFrameSourceNextFrame(FrameSource*, Mat*)`).  Per
spec §4.1, the call pulls the next frame from the named source into the
caller-supplied buffer; the returned `Frame` is the new contents of that
buffer, and the source's own stream state advances as dictated by the
wrapped library (`pullFrame`).  A read failure from the library is
propagated unchanged; a handle that is not alive is a contract
violation (`undefined`). -/
def cvSuperresFrameSourceNextFrame (L : ExtLib) (h : Handle) (buf : Frame)
    (s : LibState) : CallResult (Frame × LibState) :=
  match findIn h s.frameSources with
  | none => .undefined
  | some d =>
      match L.pullFrame d with
      | .error e => .fail e
      | .ok (f, d2) =>
          .ok (f, ⟨setIn h d2 s.frameSources, s.processors, s.nextHandle⟩)

/-- Modelled from the spec: the translation unit implementing
`cvSuperResolutionCreate` is not in the source tree (the header declares
`SuperResolution* cvSuperResolutionCreate(int, FrameSource*, FrameSource**)`).
Per spec §4.2, the call selects an algorithm implementation by the
integer tag (an unsupported tag is a failure signalled by the wrapped
library and propagated unchanged), binds the processor to the input
frame source (taken by value, never modified), and hands back the
processor handle as the return value together with a fresh output
frame-source handle through the `frameSourceOut` out-parameter.  The
result triple is (return value, value written through `frameSourceOut`,
successor state).  A bound input handle that is not alive is a contract
violation (`undefined`). -/
def cvSuperResolutionCreate (L : ExtLib) (algoType : Int)
    (frameSource : Handle) (s : LibState) :
    CallResult (Handle × Handle × LibState) :=
  match findIn frameSource s.frameSources with
  | none => .undefined
  | some d =>
      match L.selectAlgo algoType with
      | some e => .fail e
      | none =>
          .ok (s.nextHandle, s.nextHandle + 1,
            ⟨(s.nextHandle + 1, ⟨d.frames.map L.upscale⟩) :: s.frameSources,
             (s.nextHandle, ⟨algoType, frameSource, s.nextHandle + 1⟩)
               :: s.processors,
             s.nextHandle + 2⟩)

/-- Modelled from the spec: the translation unit implementing
`cvSuperResolutionRelease` is not in the source tree (the header declares
`void cvSuperResolutionRelease(SuperResolution**)`).  Per spec §4.2, the
call destroys only the processor — the bound input and output frame
sources are untouched — and writes the null handle back through the
pointer-to-handle.  A processor handle that is not alive is a contract
violation (`undefined`). -/
def cvSuperResolutionRelease (h : Handle) (s : LibState) :
    CallResult (Handle × LibState) :=
  match findIn h s.processors with
  | none => .undefined
  | some _ => .ok (0, ⟨s.frameSources, removeIn h s.processors, s.nextHandle⟩)

/-- A caller environment: the handle variables held at the call site of
the C surface. -/
abbrev Env := String → Handle

/-- Update one caller variable. -/
def Env.set (ρ : Env) (x : String) (v : Handle) : Env :=
  fun y => if y = x then v else ρ y

/-- The call-site semantics of `cvSuperresFrameSourceRelease(&x)`: the C
callee receives the address of the caller's variable `x`, destroys the
resource its current value names, and stores the written-back value
(null) into `x`. -/
def callFrameSourceRelease (x : String) (ρ : Env) (s : LibState) :
    CallResult (Env × LibState) :=
  match cvSuperresFrameSourceRelease (ρ x) s with
  | .ok (v, s2) => .ok (ρ.set x v, s2)
  | .fail e => .fail e
  | .undefined => .undefined

/-- The call-site semantics of `cvSuperResolutionCreate(t, xIn, &xOut)`:
the input argument is the *value* of the caller's variable `xIn` (C
pass-by-value, per the header signature `FrameSource* frameSource`), the
output handle is stored through the address of `xOut`, and the processor
handle is the return value.  Only `xOut` among the caller's variables
can be written. -/
def callSuperResolutionCreate (L : ExtLib) (algoType : Int)
    (xIn xOut : String) (ρ : Env) (s : LibState) :
    CallResult (Handle × Env × LibState) :=
  match cvSuperResolutionCreate L algoType (ρ xIn) s with
  | .ok (proc, outH, s2) => .ok (proc, ρ.set xOut outH, s2)
  | .fail e => .fail e
  | .undefined => .undefined

/-- Well-formedness of a library state: the null handle is never live,
every live handle is below the fresh-handle counter, and no handle names
two objects of the same kind. -/
def WF (s : LibState) : Prop :=
  0 < s.nextHandle ∧
  (∀ p ∈ s.frameSources, 0 < p.1 ∧ p.1 < s.nextHandle) ∧
  (∀ p ∈ s.processors, 0 < p.1 ∧ p.1 < s.nextHandle) ∧
  (keysOf s.frameSources).Nodup ∧ (keysOf s.processors).Nodup

instance (s : LibState) : Decidable (WF s) := by
  unfold WF
  infer_instance

/-- One operation a caller can invoke on the C surface. -/
inductive Op where
  | createVideo (fileName : String) (useGpu : Bool)
  | createCamera (deviceId : Int)
  | releaseFS (h : Handle)
  | pull (h : Handle) (buf : Frame)
  | createSR (algoType : Int) (input : Handle)
  | releaseSR (h : Handle)
deriving DecidableEq, Repr

/-- Discard the caller-visible outputs of a call, keeping its outcome on
the library state. -/
def CallResult.toState (f : α → LibState) : CallResult α → CallResult LibState
  | .ok a => .ok (f a)
  | .fail e => .fail e
  | .undefined => .undefined

/-- The state transition of one operation, defined directly by the six
entry points. -/
def step (L : ExtLib) : Op → LibState → CallResult LibState
  | .createVideo f g, s =>
      (cvSuperresCreateFrameSourceVideo L f g s).toState (fun r => r.2)
  | .createCamera c, s =>
      (cvSuperresCreateFrameSourceCamera L c s).toState (fun r => r.2)
  | .releaseFS h, s =>
      (cvSuperresFrameSourceRelease h s).toState (fun r => r.2)
  | .pull h buf, s =>
      (cvSuperresFrameSourceNextFrame L h buf s).toState (fun r => r.2)
  | .createSR t h, s =>
      (cvSuperResolutionCreate L t h s).toState (fun r => r.2.2)
  | .releaseSR h, s =>
      (cvSuperResolutionRelease h s).toState (fun r => r.2)

/-- Run a caller trace; the run is well-formed when every call
returns `ok`. -/
def runOps (L : ExtLib) : List Op → LibState → CallResult LibState
  | [], s => .ok s
  | op :: ops, s =>
      match step L op s with
      | .ok s2 => runOps L ops s2
      | .fail e => .fail e
      | .undefined => .undefined

/-- How many frame-source objects an operation creates (the
super-resolution create call produces the output frame source). -/
def creFS : Op → Nat
  | .createVideo _ _ => 1
  | .createCamera _ => 1
  | .createSR _ _ => 1
  | _ => 0

/-- How many frame-source objects an operation releases. -/
def relFS : Op → Nat
  | .releaseFS _ => 1
  | _ => 0

/-- How many processor objects an operation creates. -/
def creSR : Op → Nat
  | .createSR _ _ => 1
  | _ => 0

/-- How many processor objects an operation releases. -/
def relSR : Op → Nat
  | .releaseSR _ => 1
  | _ => 0

/-- Total frame-source creations of a trace. -/
def countCreFS (ops : List Op) : Nat := (ops.map creFS).sum

/-- Total frame-source releases of a trace. -/
def countRelFS (ops : List Op) : Nat := (ops.map relFS).sum

/-- Total processor creations of a trace. -/
def countCreSR (ops : List Op) : Nat := (ops.map creSR).sum

/-- Total processor releases of a trace. -/
def countRelSR (ops : List Op) : Nat := (ops.map relSR).sum

/-- The lifecycle phase of a handle, viewed as a frame source: `0` while
the handle value has never been handed out, `1` while the frame source
is alive, `2` once the handle value has been consumed (released, or
retired to a non-frame-source object). -/
def fsPhase (s : LibState) (h : Handle) : Nat :=
  if (findIn h s.frameSources).isSome then 1
  else if h < s.nextHandle then 2 else 0

/-- Iterate `cvSuperresFrameSourceNextFrame` on one handle (with an empty
scratch buffer), keeping only the library state: the trace of a caller
pulling a stream to its end. -/
def pullN (L : ExtLib) (h : Handle) : Nat → LibState → CallResult LibState
  | 0, s => .ok s
  | n + 1, s =>
      match cvSuperresFrameSourceNextFrame L h [] s with
      | .ok r => pullN L h n r.2
      | .fail e => .fail e
      | .undefined => .undefined

/-- A concrete instance of the wrapped library, used to evaluate the
theorems on closed inputs: every path and device opens onto a fixed short
stream, tag `1` is the one supported algorithm, upscaling doubles the
pixel row, and frames are pulled with the reference behaviour. -/
def demoLib : ExtLib where
  openVideo := fun _ _ => .ok [[1, 2], [3]]
  openCamera := fun _ => .ok [[7]]
  selectAlgo := fun t => if t = 1 then none else some ⟨4⟩
  upscale := fun fr => fr ++ fr
  pullFrame := stdPull

/-- A concrete instance of the wrapped library on which every external
operation fails, used to evaluate the error-path theorems. -/
def failLib : ExtLib where
  openVideo := fun _ _ => .error ⟨2⟩
  openCamera := fun _ => .error ⟨3⟩
  selectAlgo := fun _ => some ⟨4⟩
  upscale := fun fr => fr
  pullFrame := fun _ => .error ⟨5⟩

/-- A concrete library state with one live frame source (handle `1`,
one remaining frame). -/
def demoS1 : LibState := ⟨[(1, ⟨[[5]]⟩)], [], 2⟩

/-- The state `demoS1` after its single frame has been pulled. -/
def demoS2 : LibState := ⟨[(1, ⟨[]⟩)], [], 2⟩

/-- The state `demoS1` after a super-resolution processor (handle `2`)
with output frame source (handle `3`) has been created on handle `1`. -/
def demoSRstate : LibState :=
  ⟨[(3, ⟨[[5, 5]]⟩), (1, ⟨[[5]]⟩)], [(2, ⟨1, 1, 3⟩)], 4⟩

/-- The state `demoSRstate` after the processor has been released. -/
def demoSRrel : LibState := ⟨[(3, ⟨[[5, 5]]⟩), (1, ⟨[[5]]⟩)], [], 4⟩

/-- A concrete caller environment in which every handle variable holds
handle `1`. -/
def demoEnv : Env := fun _ => 1

/-- The environment `demoEnv` after the out-parameter variable has been
written with the fresh output handle `3`. -/
def demoEnv2 : Env := Env.set demoEnv "out" 3

/-- A concrete caller trace: create a video source, bind a
super-resolution processor to it, then release the processor, its output
source, and the input source. -/
def demoTrace : List Op :=
  [Op.createVideo "clip.avi" false, Op.createSR 1 1,
   Op.releaseSR 2, Op.releaseFS 3, Op.releaseFS 1]

theorem findIn_removeIn_self (h : Handle) (l : List (Handle × α)) :
    findIn h (removeIn h l) = none := by
  induction l with
  | nil => rfl
  | cons p ps ih =>
      by_cases hp : p.1 = h
      · simp [removeIn, hp, ih]
      · simp [removeIn, findIn, hp, ih]

theorem findIn_removeIn_ne (h h2 : Handle) (l : List (Handle × α)) (hne : h2 ≠ h) :
    findIn h2 (removeIn h l) = findIn h2 l := by
  induction l with
  | nil => rfl
  | cons p ps ih =>
      simp only [removeIn, findIn]
      by_cases hp : p.1 = h
      · rw [if_pos hp, ih]
        have hp2 : ¬p.1 = h2 := by
          rw [hp]
          exact fun hc => hne hc.symm
        rw [if_neg hp2]
      · rw [if_neg hp]
        simp only [findIn]
        rw [ih]

theorem findIn_setIn_self (h : Handle) (a : α) (l : List (Handle × α)) :
    findIn h (setIn h a l) = (findIn h l).map (fun _ => a) := by
  induction l with
  | nil => rfl
  | cons p ps ih =>
      simp only [setIn, findIn]
      by_cases hp : p.1 = h
      · rw [if_pos hp, if_pos hp]
        show (if h = h then some a else findIn h (setIn h a ps)) = _
        rw [if_pos rfl]
        rfl
      · rw [if_neg hp, if_neg hp]
        simp only [findIn, if_neg hp]
        rw [ih]

theorem findIn_setIn_ne (h h2 : Handle) (a : α) (l : List (Handle × α)) (hne : h2 ≠ h) :
    findIn h2 (setIn h a l) = findIn h2 l := by
  induction l with
  | nil => rfl
  | cons p ps ih =>
      simp only [setIn, findIn]
      by_cases hp : p.1 = h
      · rw [if_pos hp]
        simp only [findIn]
        rw [if_neg (fun hc => hne hc.symm : ¬h = h2), ih]
        have hp2 : ¬p.1 = h2 := by
          rw [hp]
          exact fun hc => hne hc.symm
        rw [if_neg hp2]
      · rw [if_neg hp]
        simp only [findIn]
        rw [ih]

theorem mem_keysOf (p : Handle × α) (l : List (Handle × α)) (hp : p ∈ l) :
    p.1 ∈ keysOf l :=
  List.mem_map.mpr ⟨p, hp, rfl⟩

theorem keysOf_setIn (h : Handle) (a : α) (l : List (Handle × α)) :
    keysOf (setIn h a l) = keysOf l := by
  induction l with
  | nil => rfl
  | cons p ps ih =>
      show keysOf (if p.1 = h then (h, a) :: setIn h a ps else p :: setIn h a ps) = _
      by_cases hp : p.1 = h
      · rw [if_pos hp]
        show h :: keysOf (setIn h a ps) = p.1 :: keysOf ps
        rw [ih, hp]
      · rw [if_neg hp]
        show p.1 :: keysOf (setIn h a ps) = p.1 :: keysOf ps
        rw [ih]

theorem length_setIn (h : Handle) (a : α) (l : List (Handle × α)) :
    (setIn h a l).length = l.length := by
  induction l with
  | nil => rfl
  | cons p ps ih =>
      by_cases hp : p.1 = h
      · simp [setIn, hp, ih]
      · simp [setIn, hp, ih]

theorem mem_of_findIn (h : Handle) (a : α) (l : List (Handle × α))
    (hf : findIn h l = some a) : (h, a) ∈ l := by
  induction l with
  | nil => exact absurd hf (by simp [findIn])
  | cons p ps ih =>
      simp only [findIn] at hf
      by_cases hp : p.1 = h
      · rw [if_pos hp] at hf
        have hf2 : p.2 = a := Option.some.inj hf
        have hpa : p = (h, a) := by rw [← hp, ← hf2]
        rw [← hpa]
        exact List.mem_cons_self p ps
      · rw [if_neg hp] at hf
        exact List.mem_cons_of_mem p (ih hf)

theorem findIn_eq_none_of_not_mem_keys (h : Handle) (l : List (Handle × α))
    (hk : h ∉ keysOf l) : findIn h l = none := by
  induction l with
  | nil => rfl
  | cons p ps ih =>
      have h1 : p.1 ≠ h := by
        intro hc
        exact hk (hc ▸ mem_keysOf p (p :: ps) (List.mem_cons_self p ps))
      have h2 : h ∉ keysOf ps := by
        intro hc
        apply hk
        show h ∈ keysOf (p :: ps)
        have hcons : keysOf (p :: ps) = p.1 :: keysOf ps := rfl
        rw [hcons]
        exact List.mem_cons_of_mem _ hc
      simp only [findIn, if_neg h1]
      exact ih h2

theorem removeIn_of_not_mem_keys (h : Handle) (l : List (Handle × α))
    (hk : h ∉ keysOf l) : removeIn h l = l := by
  induction l with
  | nil => rfl
  | cons p ps ih =>
      have h1 : p.1 ≠ h := by
        intro hc
        exact hk (hc ▸ mem_keysOf p (p :: ps) (List.mem_cons_self p ps))
      have h2 : h ∉ keysOf ps := by
        intro hc
        apply hk
        show h ∈ keysOf (p :: ps)
        have hcons : keysOf (p :: ps) = p.1 :: keysOf ps := rfl
        rw [hcons]
        exact List.mem_cons_of_mem _ hc
      simp only [removeIn, if_neg h1]
      rw [ih h2]

theorem length_removeIn_of_mem (h : Handle) (l : List (Handle × α))
    (hnd : (keysOf l).Nodup) (hsome : findIn h l ≠ none) :
    (removeIn h l).length + 1 = l.length := by
  induction l with
  | nil => exact absurd rfl hsome
  | cons p ps ih =>
      have hnd2 : p.1 ∉ keysOf ps ∧ (keysOf ps).Nodup := by
        have hcons : keysOf (p :: ps) = p.1 :: keysOf ps := rfl
        rw [hcons] at hnd
        exact List.nodup_cons.mp hnd
      by_cases hp : p.1 = h
      · have hnotin : h ∉ keysOf ps := hp ▸ hnd2.1
        have hstep : removeIn h (p :: ps) = removeIn h ps := by
          simp only [removeIn, if_pos hp]
        rw [hstep, removeIn_of_not_mem_keys h ps hnotin]
        rfl
      · have hsome2 : findIn h ps ≠ none := by
          intro hc
          apply hsome
          simp only [findIn, if_neg hp]
          exact hc
        have hlen := ih hnd2.2 hsome2
        have hstep : removeIn h (p :: ps) = p :: removeIn h ps := by
          simp only [removeIn, if_neg hp]
        rw [hstep]
        simp only [List.length_cons]
        omega

theorem step_ok_inv (L : ExtLib) (op : Op) (s s2 : LibState)
    (hok : step L op s = .ok s2) :
    (∃ f g frames, op = .createVideo f g ∧ L.openVideo f g = .ok frames ∧
       s2 = ⟨(s.nextHandle, ⟨frames⟩) :: s.frameSources, s.processors,
             s.nextHandle + 1⟩) ∨
    (∃ c frames, op = .createCamera c ∧ L.openCamera c = .ok frames ∧
       s2 = ⟨(s.nextHandle, ⟨frames⟩) :: s.frameSources, s.processors,
             s.nextHandle + 1⟩) ∨
    (∃ h, op = .releaseFS h ∧ findIn h s.frameSources ≠ none ∧
       s2 = ⟨removeIn h s.frameSources, s.processors, s.nextHandle⟩) ∨
    (∃ h buf d d2, op = .pull h buf ∧ findIn h s.frameSources = some d ∧
       s2 = ⟨setIn h d2 s.frameSources, s.processors, s.nextHandle⟩) ∨
    (∃ t h d, op = .createSR t h ∧ findIn h s.frameSources = some d ∧
       s2 = ⟨(s.nextHandle + 1, ⟨d.frames.map L.upscale⟩) :: s.frameSources,
             (s.nextHandle, ⟨t, h, s.nextHandle + 1⟩) :: s.processors,
             s.nextHandle + 2⟩) ∨
    (∃ h, op = .releaseSR h ∧ findIn h s.processors ≠ none ∧
       s2 = ⟨s.frameSources, removeIn h s.processors, s.nextHandle⟩) := by
  cases op with
  | createVideo f g =>
      cases hv : L.openVideo f g with
      | error e =>
          simp only [step, cvSuperresCreateFrameSourceVideo, hv,
            CallResult.toState] at hok
          exact CallResult.noConfusion hok
      | ok frames =>
          simp only [step, cvSuperresCreateFrameSourceVideo, hv,
            CallResult.toState, CallResult.ok.injEq] at hok
          exact Or.inl ⟨f, g, frames, rfl, hv, hok.symm⟩
  | createCamera c =>
      cases hv : L.openCamera c with
      | error e =>
          simp only [step, cvSuperresCreateFrameSourceCamera, hv,
            CallResult.toState] at hok
          exact CallResult.noConfusion hok
      | ok frames =>
          simp only [step, cvSuperresCreateFrameSourceCamera, hv,
            CallResult.toState, CallResult.ok.injEq] at hok
          exact Or.inr (Or.inl ⟨c, frames, rfl, hv, hok.symm⟩)
  | releaseFS h =>
      cases hv : findIn h s.frameSources with
      | none =>
          simp only [step, cvSuperresFrameSourceRelease, hv,
            CallResult.toState] at hok
          exact CallResult.noConfusion hok
      | some d =>
          simp only [step, cvSuperresFrameSourceRelease, hv,
            CallResult.toState, CallResult.ok.injEq] at hok
          exact Or.inr (Or.inr (Or.inl ⟨h, rfl, by rw [hv]; simp, hok.symm⟩))
  | pull h buf =>
      cases hv : findIn h s.frameSources with
      | none =>
          simp only [step, cvSuperresFrameSourceNextFrame, hv,
            CallResult.toState] at hok
          exact CallResult.noConfusion hok
      | some d =>
          cases hp : L.pullFrame d with
          | error e =>
              simp only [step, cvSuperresFrameSourceNextFrame, hv, hp,
                CallResult.toState] at hok
              exact CallResult.noConfusion hok
          | ok r =>
              obtain ⟨f2, d2⟩ := r
              simp only [step, cvSuperresFrameSourceNextFrame, hv, hp,
                CallResult.toState, CallResult.ok.injEq] at hok
              exact Or.inr (Or.inr (Or.inr (Or.inl
                ⟨h, buf, d, d2, rfl, hv, hok.symm⟩)))
  | createSR t h =>
      cases hv : findIn h s.frameSources with
      | none =>
          simp only [step, cvSuperResolutionCreate, hv,
            CallResult.toState] at hok
          exact CallResult.noConfusion hok
      | some d =>
          cases ha : L.selectAlgo t with
          | some e =>
              simp only [step, cvSuperResolutionCreate, hv, ha,
                CallResult.toState] at hok
              exact CallResult.noConfusion hok
          | none =>
              simp only [step, cvSuperResolutionCreate, hv, ha,
                CallResult.toState, CallResult.ok.injEq] at hok
              exact Or.inr (Or.inr (Or.inr (Or.inr (Or.inl
                ⟨t, h, d, rfl, hv, hok.symm⟩))))
  | releaseSR h =>
      cases hv : findIn h s.processors with
      | none =>
          simp only [step, cvSuperResolutionRelease, hv,
            CallResult.toState] at hok
          exact CallResult.noConfusion hok
      | some d =>
          simp only [step, cvSuperResolutionRelease, hv,
            CallResult.toState, CallResult.ok.injEq] at hok
          exact Or.inr (Or.inr (Or.inr (Or.inr (Or.inr
            ⟨h, rfl, by rw [hv]; simp, hok.symm⟩))))

theorem mem_setIn (h : Handle) (a : α) (p : Handle × α) (l : List (Handle × α))
    (hm : p ∈ setIn h a l) : p ∈ l ∨ p = (h, a) := by
  induction l with
  | nil => exact absurd hm (by simp [setIn])
  | cons q qs ih =>
      by_cases hq : q.1 = h
      · rw [show setIn h a (q :: qs) = (h, a) :: setIn h a qs from by
          simp only [setIn, if_pos hq]] at hm
        cases List.mem_cons.mp hm with
        | inl he => exact Or.inr he
        | inr hr =>
            cases ih hr with
            | inl hl => exact Or.inl (List.mem_cons_of_mem _ hl)
            | inr he => exact Or.inr he
      · rw [show setIn h a (q :: qs) = q :: setIn h a qs from by
          simp only [setIn, if_neg hq]] at hm
        cases List.mem_cons.mp hm with
        | inl he =>
            exact Or.inl (by rw [he]; exact List.mem_cons_self q qs)
        | inr hr =>
            cases ih hr with
            | inl hl => exact Or.inl (List.mem_cons_of_mem _ hl)
            | inr he => exact Or.inr he

theorem removeIn_sublist (h : Handle) (l : List (Handle × α)) :
    (removeIn h l).Sublist l := by
  induction l with
  | nil => exact List.Sublist.refl []
  | cons p ps ih =>
      by_cases hp : p.1 = h
      · rw [show removeIn h (p :: ps) = removeIn h ps from by
          simp only [removeIn, if_pos hp]]
        exact ih.cons p
      · rw [show removeIn h (p :: ps) = p :: removeIn h ps from by
          simp only [removeIn, if_neg hp]]
        exact ih.cons₂ p

theorem not_mem_keys_of_lt (l : List (Handle × α)) (n : Handle)
    (hb : ∀ p ∈ l, p.1 < n) : n ∉ keysOf l := by
  intro hc
  obtain ⟨p, hp, hpe⟩ := List.mem_map.mp hc
  exact absurd (hpe ▸ hb p hp) (lt_irrefl n)

theorem step_nextHandle_mono (L : ExtLib) (op : Op) (s s2 : LibState)
    (hok : step L op s = .ok s2) : s.nextHandle ≤ s2.nextHandle := by
  rcases step_ok_inv L op s s2 hok with
    ⟨f, g, fr, hop, hv, h2⟩ | ⟨c, fr, hop, hv, h2⟩ | ⟨h1, hop, hv, h2⟩ |
    ⟨h1, b, d, d2, hop, hv, h2⟩ | ⟨t, h1, d, hop, hv, h2⟩ | ⟨h1, hop, hv, h2⟩
  · subst h2; exact Nat.le_succ _
  · subst h2; exact Nat.le_succ _
  · subst h2; exact Nat.le_refl _
  · subst h2; exact Nat.le_refl _
  · subst h2; exact Nat.le_add_right _ 2
  · subst h2; exact Nat.le_refl _

theorem step_preserves_deadFS (L : ExtLib) (op : Op) (s s2 : LibState)
    (h : Handle) (hdead : findIn h s.frameSources = none)
    (hlt : h < s.nextHandle) (hok : step L op s = .ok s2) :
    findIn h s2.frameSources = none ∧ h < s2.nextHandle := by
  rcases step_ok_inv L op s s2 hok with
    ⟨f, g, fr, hop, hv, h2⟩ | ⟨c, fr, hop, hv, h2⟩ | ⟨h1, hop, hv, h2⟩ |
    ⟨h1, b, d, d2, hop, hv, h2⟩ | ⟨t, h1, d, hop, hv, h2⟩ | ⟨h1, hop, hv, h2⟩
  · subst h2
    refine ⟨?_, Nat.lt_succ_of_lt hlt⟩
    have hne : ¬s.nextHandle = h := fun hc => absurd (hc ▸ hlt) (lt_irrefl _)
    show (if s.nextHandle = h then some _ else findIn h s.frameSources) = none
    rw [if_neg hne, hdead]
  · subst h2
    refine ⟨?_, Nat.lt_succ_of_lt hlt⟩
    have hne : ¬s.nextHandle = h := fun hc => absurd (hc ▸ hlt) (lt_irrefl _)
    show (if s.nextHandle = h then some _ else findIn h s.frameSources) = none
    rw [if_neg hne, hdead]
  · subst h2
    refine ⟨?_, hlt⟩
    by_cases he : h = h1
    · subst he; exact findIn_removeIn_self h _
    · rw [findIn_removeIn_ne h1 h _ he]; exact hdead
  · subst h2
    refine ⟨?_, hlt⟩
    have hne : h ≠ h1 := by
      intro hc
      rw [hc, hv] at hdead
      exact Option.noConfusion hdead
    rw [findIn_setIn_ne h1 h _ _ hne]; exact hdead
  · subst h2
    refine ⟨?_, Nat.lt_succ_of_lt (Nat.lt_succ_of_lt hlt)⟩
    have hne : ¬s.nextHandle + 1 = h := by
      intro hc
      exact absurd (Nat.lt_succ_of_lt hlt) (hc ▸ lt_irrefl h)
    show (if s.nextHandle + 1 = h then some _ else findIn h s.frameSources) = none
    rw [if_neg hne, hdead]
  · subst h2
    exact ⟨hdead, hlt⟩

theorem step_preserves_WF (L : ExtLib) (op : Op) (s s2 : LibState)
    (hwf : WF s) (hok : step L op s = .ok s2) : WF s2 := by
  obtain ⟨hpos, hfs, hsr, hndf, hnds⟩ := hwf
  rcases step_ok_inv L op s s2 hok with
    ⟨f, g, fr, hop, hv, h2⟩ | ⟨c, fr, hop, hv, h2⟩ | ⟨h1, hop, hv, h2⟩ |
    ⟨h1, b, d, d2, hop, hv, h2⟩ | ⟨t, h1, d, hop, hv, h2⟩ | ⟨h1, hop, hv, h2⟩
  · subst h2
    refine ⟨Nat.succ_pos _, ?_, ?_, ?_, hnds⟩
    · intro p hp
      cases List.mem_cons.mp hp with
      | inl he => rw [he]; exact ⟨hpos, Nat.lt_succ_self _⟩
      | inr hr => exact ⟨(hfs p hr).1, Nat.lt_succ_of_lt (hfs p hr).2⟩
    · intro p hp
      exact ⟨(hsr p hp).1, Nat.lt_succ_of_lt (hsr p hp).2⟩
    · show (s.nextHandle :: keysOf s.frameSources).Nodup
      exact List.nodup_cons.mpr
        ⟨not_mem_keys_of_lt _ _ (fun p hp => (hfs p hp).2), hndf⟩
  · subst h2
    refine ⟨Nat.succ_pos _, ?_, ?_, ?_, hnds⟩
    · intro p hp
      cases List.mem_cons.mp hp with
      | inl he => rw [he]; exact ⟨hpos, Nat.lt_succ_self _⟩
      | inr hr => exact ⟨(hfs p hr).1, Nat.lt_succ_of_lt (hfs p hr).2⟩
    · intro p hp
      exact ⟨(hsr p hp).1, Nat.lt_succ_of_lt (hsr p hp).2⟩
    · show (s.nextHandle :: keysOf s.frameSources).Nodup
      exact List.nodup_cons.mpr
        ⟨not_mem_keys_of_lt _ _ (fun p hp => (hfs p hp).2), hndf⟩
  · subst h2
    refine ⟨hpos, ?_, hsr, ?_, hnds⟩
    · intro p hp
      exact hfs p ((removeIn_sublist h1 _).subset hp)
    · exact List.Nodup.sublist ((removeIn_sublist h1 _).map Prod.fst) hndf
  · subst h2
    refine ⟨hpos, ?_, hsr, ?_, hnds⟩
    · intro p hp
      cases mem_setIn h1 d2 p _ hp with
      | inl hl => exact hfs p hl
      | inr he =>
          have hm := mem_of_findIn h1 d _ hv
          rw [he]
          exact ⟨(hfs _ hm).1, (hfs _ hm).2⟩
    · rw [show keysOf (setIn h1 d2 s.frameSources) = keysOf s.frameSources
        from keysOf_setIn h1 d2 s.frameSources]
      exact hndf
  · subst h2
    refine ⟨Nat.succ_pos _, ?_, ?_, ?_, ?_⟩
    · intro p hp
      cases List.mem_cons.mp hp with
      | inl he => rw [he]; exact ⟨Nat.succ_pos _, Nat.lt_succ_self _⟩
      | inr hr =>
          exact ⟨(hfs p hr).1,
            Nat.lt_succ_of_lt (Nat.lt_succ_of_lt (hfs p hr).2)⟩
    · intro p hp
      cases List.mem_cons.mp hp with
      | inl he => rw [he]; exact ⟨hpos, Nat.lt_succ_of_lt (Nat.lt_succ_self _)⟩
      | inr hr =>
          exact ⟨(hsr p hr).1,
            Nat.lt_succ_of_lt (Nat.lt_succ_of_lt (hsr p hr).2)⟩
    · show ((s.nextHandle + 1) :: keysOf s.frameSources).Nodup
      exact List.nodup_cons.mpr
        ⟨not_mem_keys_of_lt _ _ (fun p hp => Nat.lt_succ_of_lt (hfs p hp).2),
         hndf⟩
    · show (s.nextHandle :: keysOf s.processors).Nodup
      exact List.nodup_cons.mpr
        ⟨not_mem_keys_of_lt _ _ (fun p hp => (hsr p hp).2), hnds⟩
  · subst h2
    refine ⟨hpos, hfs, ?_, hndf, ?_⟩
    · intro p hp
      exact hsr p ((removeIn_sublist h1 _).subset hp)
    · exact List.Nodup.sublist ((removeIn_sublist h1 _).map Prod.fst) hnds

theorem runOps_append (L : ExtLib) (xs ys : List Op) (s s2 : LibState)
    (hok : runOps L (xs ++ ys) s = .ok s2) :
    ∃ s1, runOps L xs s = .ok s1 ∧ runOps L ys s1 = .ok s2 := by
  induction xs generalizing s with
  | nil => exact ⟨s, rfl, hok⟩
  | cons op ops ih =>
      rw [show (op :: ops) ++ ys = op :: (ops ++ ys) from rfl] at hok
      cases hstep : step L op s with
      | ok s3 =>
          simp only [runOps, hstep] at hok
          obtain ⟨s1, hrun1, hrun2⟩ := ih s3 hok
          refine ⟨s1, ?_, hrun2⟩
          simp only [runOps, hstep]
          exact hrun1
      | fail e =>
          simp only [runOps, hstep] at hok
          exact CallResult.noConfusion hok
      | undefined =>
          simp only [runOps, hstep] at hok
          exact CallResult.noConfusion hok

theorem runOps_preserves_WF (L : ExtLib) (ops : List Op) :
    ∀ s s2 : LibState, WF s → runOps L ops s = .ok s2 → WF s2 := by
  induction ops with
  | nil =>
      intro s s2 hwf hok
      simp only [runOps] at hok
      exact (CallResult.ok.inj hok) ▸ hwf
  | cons op ops ih =>
      intro s s2 hwf hok
      cases hstep : step L op s with
      | ok s3 =>
          simp only [runOps, hstep] at hok
          exact ih s3 s2 (step_preserves_WF L op s s3 hwf hstep) hok
      | fail e =>
          simp only [runOps, hstep] at hok
          exact CallResult.noConfusion hok
      | undefined =>
          simp only [runOps, hstep] at hok
          exact CallResult.noConfusion hok

theorem runOps_preserves_deadFS (L : ExtLib) (ops : List Op) :
    ∀ s s2 : LibState, ∀ h : Handle, findIn h s.frameSources = none →
      h < s.nextHandle → runOps L ops s = .ok s2 →
      findIn h s2.frameSources = none ∧ h < s2.nextHandle := by
  induction ops with
  | nil =>
      intro s s2 h hdead hlt hok
      simp only [runOps] at hok
      exact (CallResult.ok.inj hok) ▸ ⟨hdead, hlt⟩
  | cons op ops ih =>
      intro s s2 h hdead hlt hok
      cases hstep : step L op s with
      | ok s3 =>
          simp only [runOps, hstep] at hok
          obtain ⟨hdead3, hlt3⟩ :=
            step_preserves_deadFS L op s s3 h hdead hlt hstep
          exact ih s3 s2 h hdead3 hlt3 hok
      | fail e =>
          simp only [runOps, hstep] at hok
          exact CallResult.noConfusion hok
      | undefined =>
          simp only [runOps, hstep] at hok
          exact CallResult.noConfusion hok

theorem step_counts (L : ExtLib) (op : Op) (s s2 : LibState)
    (hwf : WF s) (hok : step L op s = .ok s2) :
    s2.frameSources.length + relFS op = s.frameSources.length + creFS op ∧
    s2.processors.length + relSR op = s.processors.length + creSR op := by
  obtain ⟨hpos, hfs, hsr, hndf, hnds⟩ := hwf
  rcases step_ok_inv L op s s2 hok with
    ⟨f, g, fr, hop, hv, h2⟩ | ⟨c, fr, hop, hv, h2⟩ | ⟨h1, hop, hv, h2⟩ |
    ⟨h1, b, d, d2, hop, hv, h2⟩ | ⟨t, h1, d, hop, hv, h2⟩ | ⟨h1, hop, hv, h2⟩
  · subst h2; subst hop
    exact ⟨rfl, rfl⟩
  · subst h2; subst hop
    exact ⟨rfl, rfl⟩
  · subst h2; subst hop
    exact ⟨length_removeIn_of_mem h1 s.frameSources hndf hv, rfl⟩
  · subst h2; subst hop
    exact ⟨length_setIn h1 d2 s.frameSources, rfl⟩
  · subst h2; subst hop
    exact ⟨rfl, rfl⟩
  · subst h2; subst hop
    exact ⟨rfl, length_removeIn_of_mem h1 s.processors hnds hv⟩

theorem runOps_counts (L : ExtLib) (ops : List Op) :
    ∀ s s2 : LibState, WF s → runOps L ops s = .ok s2 →
      s2.frameSources.length + countRelFS ops =
        s.frameSources.length + countCreFS ops ∧
      s2.processors.length + countRelSR ops =
        s.processors.length + countCreSR ops := by
  induction ops with
  | nil =>
      intro s s2 hwf hok
      simp only [runOps] at hok
      cases CallResult.ok.inj hok
      simp [countRelFS, countCreFS, countRelSR, countCreSR]
  | cons op ops ih =>
      intro s s2 hwf hok
      cases hstep : step L op s with
      | ok s3 =>
          simp only [runOps, hstep] at hok
          have h1 := step_counts L op s s3 ⟨hwf.1, hwf.2.1, hwf.2.2.1,
            hwf.2.2.2.1, hwf.2.2.2.2⟩ hstep
          have h2 := ih s3 s2 (step_preserves_WF L op s s3 hwf hstep) hok
          have e1 := h1.1
          have e2 := h1.2
          have e3 := h2.1
          have e4 := h2.2
          simp only [countRelFS, countCreFS, countRelSR, countCreSR,
            List.map_cons, List.sum_cons] at e3 e4 ⊢
          constructor
          · omega
          · omega
      | fail e =>
          simp only [runOps, hstep] at hok
          exact CallResult.noConfusion hok
      | undefined =>
          simp only [runOps, hstep] at hok
          exact CallResult.noConfusion hok

/-- C1: for every valid input frame-source handle (in a well-formed
state, with an algorithm tag the wrapped library supports),
`cvSuperResolutionCreate` succeeds, returns a non-null processor handle,
and writes through its out-parameter a non-null output frame-source
handle distinct from the input handle (and actually backed by a live
frame source delivering the upscaled stream). -/
theorem createSuperResolution_fresh_nonnull (L : ExtLib) (t : Int)
    (h : Handle) (s : LibState) (d : FrameSourceData) (hwf : WF s)
    (hv : findIn h s.frameSources = some d) (ht : L.selectAlgo t = none) :
    ∃ proc outH s2,
      cvSuperResolutionCreate L t h s = .ok (proc, outH, s2) ∧
      proc ≠ 0 ∧ outH ≠ 0 ∧ outH ≠ h ∧
      findIn outH s2.frameSources = some ⟨d.frames.map L.upscale⟩ := by
  have hlt : h < s.nextHandle := (hwf.2.1 _ (mem_of_findIn h d _ hv)).2
  refine ⟨s.nextHandle, s.nextHandle + 1,
    ⟨(s.nextHandle + 1, ⟨d.frames.map L.upscale⟩) :: s.frameSources,
     (s.nextHandle, ⟨t, h, s.nextHandle + 1⟩) :: s.processors,
     s.nextHandle + 2⟩, ?_, ?_, ?_, ?_, ?_⟩
  · simp only [cvSuperResolutionCreate, hv, ht]
  · exact Nat.pos_iff_ne_zero.mp hwf.1
  · exact Nat.succ_ne_zero _
  · intro hc
    rw [← hc] at hlt
    exact Nat.not_succ_le_self _ (Nat.le_of_lt hlt)
  · show findIn (s.nextHandle + 1)
      ((s.nextHandle + 1, (⟨d.frames.map L.upscale⟩ : FrameSourceData))
        :: s.frameSources) = _
    simp [findIn]

/-- Closed evaluation of the super-resolution creation theorem at the
concrete state `demoS1`: the processor handle `2` and output handle `3`
are non-null, the output is distinct from the input handle `1`, and the
output source holds the upscaled stream. -/
theorem createSuperResolution_fresh_nonnull_w :
    (2 : Handle) ≠ 0 ∧ (3 : Handle) ≠ 0 ∧ (3 : Handle) ≠ 1 ∧
    findIn 3 demoSRstate.frameSources = some ⟨[[5, 5]]⟩ := by
  obtain ⟨proc, outH, s2, h1, h2, h3, h4, h5⟩ :=
    createSuperResolution_fresh_nonnull demoLib 1 1 demoS1 ⟨[[5]]⟩
      (by decide) (by decide) (by decide)
  have hconc : cvSuperResolutionCreate demoLib 1 1 demoS1 =
      .ok (2, 3, demoSRstate) := by decide
  rw [h1] at hconc
  obtain ⟨hp, ho, hs⟩ : proc = 2 ∧ outH = 3 ∧ s2 = demoSRstate := by
    have := CallResult.ok.inj hconc
    exact ⟨congrArg Prod.fst this,
      congrArg Prod.fst (congrArg Prod.snd this),
      congrArg Prod.snd (congrArg Prod.snd this)⟩
  subst hp; subst ho; subst hs
  exact ⟨h2, h3, h4, h5⟩

/-- C2: releasing a super-resolution processor destroys only the
processor.  The bound input and output frame sources keep their exact
state, and each of them can afterwards be released on its own (in either
role), so the input handle stays independently releasable. -/
theorem releaseSuperResolution_preserves_sources (s : LibState) (p : Handle)
    (pd : SuperResData) (a b : FrameSourceData)
    (hp : findIn p s.processors = some pd)
    (hin : findIn pd.input s.frameSources = some a)
    (hout : findIn pd.output s.frameSources = some b)
    (hne : pd.input ≠ pd.output) :
    ∃ s2, cvSuperResolutionRelease p s = .ok (0, s2) ∧
      findIn pd.input s2.frameSources = some a ∧
      findIn pd.output s2.frameSources = some b ∧
      ∃ s3, cvSuperresFrameSourceRelease pd.input s2 = .ok (0, s3) ∧
        ∃ s4, cvSuperresFrameSourceRelease pd.output s3 = .ok (0, s4) := by
  refine ⟨⟨s.frameSources, removeIn p s.processors, s.nextHandle⟩,
    ?_, hin, hout, ?_⟩
  · simp only [cvSuperResolutionRelease, hp]
  · refine ⟨⟨removeIn pd.input s.frameSources, removeIn p s.processors,
      s.nextHandle⟩, ?_, ?_⟩
    · simp only [cvSuperresFrameSourceRelease]
      show (match findIn pd.input s.frameSources with
        | none => CallResult.undefined
        | some _ => CallResult.ok
            (0, (⟨removeIn pd.input s.frameSources, removeIn p s.processors,
                  s.nextHandle⟩ : LibState))) = _
      rw [hin]
    · have hout3 : findIn pd.output (removeIn pd.input s.frameSources) =
          some b := by
        rw [findIn_removeIn_ne pd.input pd.output _ (fun hc => hne hc.symm)]
        exact hout
      refine ⟨⟨removeIn pd.output (removeIn pd.input s.frameSources),
        removeIn p s.processors, s.nextHandle⟩, ?_⟩
      simp only [cvSuperresFrameSourceRelease]
      show (match findIn pd.output (removeIn pd.input s.frameSources) with
        | none => CallResult.undefined
        | some _ => CallResult.ok
            (0, (⟨removeIn pd.output (removeIn pd.input s.frameSources),
                  removeIn p s.processors, s.nextHandle⟩ : LibState))) = _
      rw [hout3]

/-- Closed evaluation of the processor-release theorem at the concrete
state `demoSRstate`: releasing processor `2` leaves both the input
source `1` and the output source `3` alive with unchanged state. -/
theorem releaseSuperResolution_preserves_sources_w :
    cvSuperResolutionRelease 2 demoSRstate = .ok (0, demoSRrel) ∧
    findIn 1 demoSRrel.frameSources = some ⟨[[5]]⟩ ∧
    findIn 3 demoSRrel.frameSources = some ⟨[[5, 5]]⟩ := by
  obtain ⟨s2, h1, h2, h3, _⟩ :=
    releaseSuperResolution_preserves_sources demoSRstate 2 ⟨1, 1, 3⟩
      ⟨[[5]]⟩ ⟨[[5, 5]]⟩ (by decide) (by decide) (by decide) (by decide)
  have hconc : cvSuperResolutionRelease 2 demoSRstate =
      .ok (0, demoSRrel) := by decide
  rw [h1] at hconc
  have hs : s2 = demoSRrel :=
    congrArg Prod.snd (CallResult.ok.inj hconc)
  subst hs
  exact ⟨h1, h2, h3⟩

/-- C3: at a call site holding a valid frame-source handle in variable
`x`, `cvSuperresFrameSourceRelease(&x)` destroys the underlying resource
and stores the null handle back through the pointer, so afterwards the
caller's variable is null and the old handle names no live source. -/
theorem releaseFrameSource_nulls_handle (x : String) (ρ : Env)
    (s : LibState) (d : FrameSourceData)
    (hv : findIn (ρ x) s.frameSources = some d) :
    ∃ ρ2 s2, callFrameSourceRelease x ρ s = .ok (ρ2, s2) ∧
      ρ2 x = 0 ∧ findIn (ρ x) s2.frameSources = none := by
  refine ⟨ρ.set x 0,
    ⟨removeIn (ρ x) s.frameSources, s.processors, s.nextHandle⟩, ?_, ?_, ?_⟩
  · simp only [callFrameSourceRelease, cvSuperresFrameSourceRelease, hv]
  · simp [Env.set]
  · exact findIn_removeIn_self _ _

/-- Closed evaluation of the release-nulls-the-variable theorem at the
concrete environment `demoEnv` and state `demoS1`: after the call the
caller's variable reads null and handle `1` names no live source. -/
theorem releaseFrameSource_nulls_handle_w :
    (Env.set demoEnv "src" 0) "src" = 0 ∧
    findIn 1 ((⟨[], [], 2⟩ : LibState)).frameSources = none := by
  obtain ⟨ρ2, s2, h1, h2, h3⟩ :=
    releaseFrameSource_nulls_handle "src" demoEnv demoS1 ⟨[[5]]⟩ (by decide)
  have hconc : callFrameSourceRelease "src" demoEnv demoS1 =
      .ok (Env.set demoEnv "src" 0, ⟨[], [], 2⟩) := rfl
  rw [h1] at hconc
  have hpair := CallResult.ok.inj hconc
  have hρ : ρ2 = Env.set demoEnv "src" 0 := congrArg Prod.fst hpair
  have hs : s2 = (⟨[], [], 2⟩ : LibState) := congrArg Prod.snd hpair
  rw [hρ] at h2
  rw [hs] at h3
  exact ⟨h2, h3⟩

/-- C6: `cvSuperresCreateFrameSourceVideo` on a path the wrapped library
cannot open reports that library's error through its error channel,
unchanged, and returns no handle; on an openable path it returns a valid
non-null handle backed by the opened stream. -/
theorem createFrameSourceVideo_fails_or_valid (L : ExtLib) (f : String)
    (g : Bool) (s : LibState) :
    (∀ e, L.openVideo f g = .error e →
       cvSuperresCreateFrameSourceVideo L f g s = .fail e) ∧
    (∀ frames, L.openVideo f g = .ok frames → 0 < s.nextHandle →
       ∃ h s2, cvSuperresCreateFrameSourceVideo L f g s = .ok (h, s2) ∧
         h ≠ 0 ∧ findIn h s2.frameSources = some ⟨frames⟩) := by
  constructor
  · intro e he
    simp only [cvSuperresCreateFrameSourceVideo, he]
  · intro frames hf hpos
    refine ⟨s.nextHandle,
      ⟨(s.nextHandle, ⟨frames⟩) :: s.frameSources, s.processors,
       s.nextHandle + 1⟩, ?_, Nat.pos_iff_ne_zero.mp hpos, ?_⟩
    · simp only [cvSuperresCreateFrameSourceVideo, hf]
    · show findIn s.nextHandle
        ((s.nextHandle, (⟨frames⟩ : FrameSourceData)) :: s.frameSources) = _
      simp [findIn]

/-- Closed evaluation of the video-creation theorem: on the failing
library the call reports the library's own error `2`; on the demo
library it returns the non-null handle `1` holding the opened stream. -/
theorem createFrameSourceVideo_fails_or_valid_w :
    cvSuperresCreateFrameSourceVideo failLib "bad.avi" false initState =
      .fail ⟨2⟩ ∧
    (1 : Handle) ≠ 0 ∧
    findIn 1 ((⟨[(1, ⟨[[1, 2], [3]]⟩)], [], 2⟩ : LibState)).frameSources =
      some ⟨[[1, 2], [3]]⟩ := by
  refine ⟨(createFrameSourceVideo_fails_or_valid failLib "bad.avi" false
    initState).1 ⟨2⟩ rfl, ?_⟩
  obtain ⟨h, s2, h1, h2, h3⟩ :=
    (createFrameSourceVideo_fails_or_valid demoLib "clip.avi" true
      initState).2 [[1, 2], [3]] rfl (by decide)
  have hconc : cvSuperresCreateFrameSourceVideo demoLib "clip.avi" true
      initState = .ok (1, ⟨[(1, ⟨[[1, 2], [3]]⟩)], [], 2⟩) := by decide
  rw [h1] at hconc
  have hpair := CallResult.ok.inj hconc
  have hh : h = 1 := congrArg Prod.fst hpair
  have hs : s2 = (⟨[(1, ⟨[[1, 2], [3]]⟩)], [], 2⟩ : LibState) :=
    congrArg Prod.snd hpair
  rw [hh] at h2
  rw [hh, hs] at h3
  exact ⟨h2, h3⟩

/-- C7: a successful `cvSuperresFrameSourceNextFrame` call hands back no
handle and mutates only the caller-supplied buffer and the pulled
source's own stream position: the fresh-handle counter, the processor
table, every other frame source, and the set of frame-source handles are
all unchanged, and the new buffer contents and source state are exactly
what the wrapped library's pull produced. -/
theorem nextFrame_mutates_only_buffer_and_source (L : ExtLib) (h : Handle)
    (buf : Frame) (s : LibState) (f2 : Frame) (s2 : LibState)
    (hok : cvSuperresFrameSourceNextFrame L h buf s = .ok (f2, s2)) :
    s2.nextHandle = s.nextHandle ∧ s2.processors = s.processors ∧
    keysOf s2.frameSources = keysOf s.frameSources ∧
    (∀ h2, h2 ≠ h → findIn h2 s2.frameSources = findIn h2 s.frameSources) ∧
    ∃ d d2, findIn h s.frameSources = some d ∧
      L.pullFrame d = .ok (f2, d2) ∧ findIn h s2.frameSources = some d2 := by
  cases hfa : findIn h s.frameSources with
  | none =>
      simp only [cvSuperresFrameSourceNextFrame, hfa] at hok
      exact CallResult.noConfusion hok
  | some d =>
      cases hp : L.pullFrame d with
      | error e =>
          simp only [cvSuperresFrameSourceNextFrame, hfa, hp] at hok
          exact CallResult.noConfusion hok
      | ok r =>
          obtain ⟨f3, d2⟩ := r
          simp only [cvSuperresFrameSourceNextFrame, hfa, hp,
            CallResult.ok.injEq, Prod.mk.injEq] at hok
          obtain ⟨hf3, hs2⟩ := hok
          subst hf3
          subst hs2
          refine ⟨rfl, rfl, keysOf_setIn h d2 s.frameSources, ?_, d, d2,
            rfl, hp, ?_⟩
          · intro h2 hne
            exact findIn_setIn_ne h h2 d2 s.frameSources hne
          · show findIn h (setIn h d2 s.frameSources) = some d2
            rw [findIn_setIn_self, hfa]
            rfl

/-- Closed evaluation of the frame-pull theorem on `demoS1`: pulling
handle `1` leaves the counter, the processors, and the handle set
unchanged, and advances only the pulled source. -/
theorem nextFrame_mutates_only_buffer_and_source_w :
    demoS2.nextHandle = demoS1.nextHandle ∧
    demoS2.processors = demoS1.processors ∧
    keysOf demoS2.frameSources = keysOf demoS1.frameSources ∧
    findIn 1 demoS2.frameSources = some ⟨[]⟩ := by
  obtain ⟨h1, h2, h3, _, d, d2, hd, hpull, hd2⟩ :=
    nextFrame_mutates_only_buffer_and_source demoLib 1 [] demoS1 [5] demoS2
      (by decide)
  have hdval : d = (⟨[[5]]⟩ : FrameSourceData) := by
    have : findIn 1 demoS1.frameSources =
        some (⟨[[5]]⟩ : FrameSourceData) := by decide
    rw [hd] at this
    exact Option.some.inj this
  subst hdval
  have hd2val : d2 = (⟨[]⟩ : FrameSourceData) := by
    have : demoLib.pullFrame ⟨[[5]]⟩ =
        .ok ([5], (⟨[]⟩ : FrameSourceData)) := rfl
    rw [hpull] at this
    exact congrArg Prod.snd (Except.ok.inj this)
  subst hd2val
  exact ⟨h1, h2, h3, hd2⟩

/-- C9: the binding layer defines no error values of its own and
propagates wrapped-library failures unchanged: each creating call fails
with an error exactly when the library signalled that same error, a
frame pull fails with exactly the library's read error, and the two
release calls never manufacture a library error at all. -/
theorem errors_propagated_unchanged :
    (∀ (L : ExtLib) (f : String) (g : Bool) (s : LibState) (e : ExtErr),
       cvSuperresCreateFrameSourceVideo L f g s = .fail e ↔
         L.openVideo f g = .error e) ∧
    (∀ (L : ExtLib) (c : Int) (s : LibState) (e : ExtErr),
       cvSuperresCreateFrameSourceCamera L c s = .fail e ↔
         L.openCamera c = .error e) ∧
    (∀ (L : ExtLib) (t : Int) (h : Handle) (s : LibState)
       (d : FrameSourceData) (e : ExtErr), findIn h s.frameSources = some d →
       (cvSuperResolutionCreate L t h s = .fail e ↔
         L.selectAlgo t = some e)) ∧
    (∀ (L : ExtLib) (h : Handle) (buf : Frame) (s : LibState)
       (d : FrameSourceData) (e : ExtErr), findIn h s.frameSources = some d →
       (cvSuperresFrameSourceNextFrame L h buf s = .fail e ↔
         L.pullFrame d = .error e)) ∧
    (∀ (h : Handle) (s : LibState) (e : ExtErr),
       cvSuperresFrameSourceRelease h s ≠ .fail e) ∧
    (∀ (h : Handle) (s : LibState) (e : ExtErr),
       cvSuperResolutionRelease h s ≠ .fail e) := by
  refine ⟨?_, ?_, ?_, ?_, ?_, ?_⟩
  · intro L f g s e
    cases hv : L.openVideo f g with
    | error e2 => simp [cvSuperresCreateFrameSourceVideo, hv]
    | ok frames => simp [cvSuperresCreateFrameSourceVideo, hv]
  · intro L c s e
    cases hv : L.openCamera c with
    | error e2 => simp [cvSuperresCreateFrameSourceCamera, hv]
    | ok frames => simp [cvSuperresCreateFrameSourceCamera, hv]
  · intro L t h s d e hd
    cases ha : L.selectAlgo t with
    | none => simp [cvSuperResolutionCreate, hd, ha]
    | some e2 => simp [cvSuperResolutionCreate, hd, ha]
  · intro L h buf s d e hd
    cases hp : L.pullFrame d with
    | error e2 => simp [cvSuperresFrameSourceNextFrame, hd, hp]
    | ok r => simp [cvSuperresFrameSourceNextFrame, hd, hp]
  · intro h s e
    cases hv : findIn h s.frameSources with
    | none => simp [cvSuperresFrameSourceRelease, hv]
    | some d => simp [cvSuperresFrameSourceRelease, hv]
  · intro h s e
    cases hv : findIn h s.processors with
    | none => simp [cvSuperResolutionRelease, hv]
    | some d => simp [cvSuperResolutionRelease, hv]

/-- Closed evaluation of the error-propagation theorem on the failing
library: the super-resolution create loop reports exactly the library's
tag error, and a frame pull reports exactly the library's read error. -/
theorem errors_propagated_unchanged_w :
    (cvSuperResolutionCreate failLib 9 1 demoS1 = .fail ⟨4⟩ ↔
      failLib.selectAlgo 9 = some ⟨4⟩) ∧
    (cvSuperresFrameSourceNextFrame failLib 1 [] demoS1 = .fail ⟨5⟩ ↔
      failLib.pullFrame ⟨[[5]]⟩ = .error ⟨5⟩) :=
  ⟨errors_propagated_unchanged.2.2.1 failLib 9 1 demoS1 ⟨[[5]]⟩ ⟨4⟩
     (by decide),
   errors_propagated_unchanged.2.2.2.1 failLib 1 [] demoS1 ⟨[[5]]⟩ ⟨5⟩
     (by decide)⟩

/-- C10: `cvSuperResolutionCreate` receives the input frame source by
value (a single pointer, per the header signature), so a successful call
leaves the caller's input handle variable exactly as it was and leaves
the input source's state untouched; the only caller variable written is
the `frameSourceOut` out-parameter, and the two delivered handles (the
returned processor and the written output source) are fresh — they named
no frame source before the call. -/
theorem createSuperResolution_input_variable_unchanged (L : ExtLib)
    (t : Int) (xIn xOut : String) (ρ : Env) (s : LibState) (proc : Handle)
    (ρ2 : Env) (s2 : LibState) (hwf : WF s) (hxy : xIn ≠ xOut)
    (hok : callSuperResolutionCreate L t xIn xOut ρ s = .ok (proc, ρ2, s2)) :
    ρ2 xIn = ρ xIn ∧ (∀ y, y ≠ xOut → ρ2 y = ρ y) ∧
    findIn (ρ xIn) s2.frameSources = findIn (ρ xIn) s.frameSources ∧
    findIn proc s.frameSources = none ∧
    findIn (ρ2 xOut) s.frameSources = none := by
  cases hfa : findIn (ρ xIn) s.frameSources with
  | none =>
      simp only [callSuperResolutionCreate, cvSuperResolutionCreate,
        hfa] at hok
      exact CallResult.noConfusion hok
  | some d =>
      cases ha : L.selectAlgo t with
      | some e =>
          simp only [callSuperResolutionCreate, cvSuperResolutionCreate,
            hfa, ha] at hok
          exact CallResult.noConfusion hok
      | none =>
          simp only [callSuperResolutionCreate, cvSuperResolutionCreate,
            hfa, ha, CallResult.ok.injEq, Prod.mk.injEq] at hok
          obtain ⟨hproc, hρ, hs⟩ := hok
          subst hproc
          subst hρ
          subst hs
          have hlt : ρ xIn < s.nextHandle :=
            (hwf.2.1 _ (mem_of_findIn (ρ xIn) d _ hfa)).2
          have hfresh : ∀ n : Handle, s.nextHandle ≤ n →
              findIn n s.frameSources = none := by
            intro n hn
            refine findIn_eq_none_of_not_mem_keys n _ ?_
            exact not_mem_keys_of_lt _ _
              (fun p hp => Nat.lt_of_lt_of_le (hwf.2.1 p hp).2 hn)
          refine ⟨?_, ?_, ?_, ?_, ?_⟩
          · show Env.set ρ xOut (s.nextHandle + 1) xIn = ρ xIn
            simp [Env.set, hxy]
          · intro y hy
            show Env.set ρ xOut (s.nextHandle + 1) y = ρ y
            simp [Env.set, hy]
          · show findIn (ρ xIn)
              ((s.nextHandle + 1, (⟨d.frames.map L.upscale⟩ : FrameSourceData))
                :: s.frameSources) = _
            have hne : ¬s.nextHandle + 1 = ρ xIn := by
              intro hc
              rw [← hc] at hlt
              exact Nat.not_succ_le_self _ (Nat.le_of_lt hlt)
            simp only [findIn, if_neg hne]
            exact hfa
          · exact hfresh s.nextHandle (Nat.le_refl _)
          · show findIn (Env.set ρ xOut (s.nextHandle + 1) xOut)
              s.frameSources = none
            have hset : Env.set ρ xOut (s.nextHandle + 1) xOut =
                s.nextHandle + 1 := by simp [Env.set]
            rw [hset]
            exact hfresh (s.nextHandle + 1) (Nat.le_succ _)

/-- Closed evaluation of the pass-by-value theorem at the concrete call
site `cvSuperResolutionCreate(1, in, &out)` on `demoS1`: the variable
holding the input handle still reads `1` afterwards, the input source is
untouched, and the delivered handles `2` and `3` were fresh. -/
theorem createSuperResolution_input_variable_unchanged_w :
    demoEnv2 "in" = demoEnv "in" ∧
    findIn (demoEnv "in") demoSRstate.frameSources =
      findIn (demoEnv "in") demoS1.frameSources ∧
    findIn 2 demoS1.frameSources = none ∧
    findIn (demoEnv2 "out") demoS1.frameSources = none := by
  obtain ⟨h1, _, h3, h4, h5⟩ :=
    createSuperResolution_input_variable_unchanged demoLib 1 "in" "out"
      demoEnv demoS1 2 demoEnv2 demoSRstate (by decide) (by decide) rfl
  exact ⟨h1, h3, h4, h5⟩

/-- C4: in every well-formed caller trace (a run from the initial state
in which every call succeeds), once `cvSuperresFrameSourceRelease` has
been applied to a frame-source handle, applying any further operation to
that handle — another frame pull, another release, or use as the input
of a super-resolution creation — is a contract violation: it yields
`undefined` (undefined behaviour), never a silent success on stale data. -/
theorem no_operation_after_release (L : ExtLib) (pre post : List Op)
    (h : Handle) (buf : Frame) (t : Int) (s2 : LibState)
    (hrun : runOps L (pre ++ Op.releaseFS h :: post) initState = .ok s2) :
    cvSuperresFrameSourceNextFrame L h buf s2 = .undefined ∧
    cvSuperresFrameSourceRelease h s2 = .undefined ∧
    cvSuperResolutionCreate L t h s2 = .undefined := by
  obtain ⟨s1, hrun1, hrun2⟩ :=
    runOps_append L pre (Op.releaseFS h :: post) initState s2 hrun
  have hwf1 : WF s1 := runOps_preserves_WF L pre initState s1 (by decide) hrun1
  cases hstep : step L (Op.releaseFS h) s1 with
  | ok s15 =>
      have hrun3 : runOps L post s15 = .ok s2 := by
        simp only [runOps, hstep] at hrun2
        exact hrun2
      rcases step_ok_inv L _ s1 s15 hstep with
        ⟨_, _, _, hop, _, _⟩ | ⟨_, _, hop, _, _⟩ | ⟨h1, hop, hv, hst⟩ |
        ⟨_, _, _, _, hop, _, _⟩ | ⟨_, _, _, hop, _, _⟩ | ⟨h1, hop, hv, hst⟩
      · exact Op.noConfusion hop
      · exact Op.noConfusion hop
      · have hh : h = h1 := Op.releaseFS.inj hop
        subst hh
        subst hst
        have hlt : h < s1.nextHandle := by
          cases hfa : findIn h s1.frameSources with
          | none => exact absurd hfa hv
          | some a => exact (hwf1.2.1 _ (mem_of_findIn h a _ hfa)).2
        obtain ⟨hdead2, _⟩ := runOps_preserves_deadFS L post
          ⟨removeIn h s1.frameSources, s1.processors, s1.nextHandle⟩ s2 h
          (findIn_removeIn_self h s1.frameSources) hlt hrun3
        refine ⟨?_, ?_, ?_⟩
        · simp only [cvSuperresFrameSourceNextFrame, hdead2]
        · simp only [cvSuperresFrameSourceRelease, hdead2]
        · simp only [cvSuperResolutionCreate, hdead2]
      · exact Op.noConfusion hop
      · exact Op.noConfusion hop
      · exact Op.noConfusion hop
  | fail e =>
      simp only [runOps, hstep] at hrun2
      exact CallResult.noConfusion hrun2
  | undefined =>
      simp only [runOps, hstep] at hrun2
      exact CallResult.noConfusion hrun2

/-- Closed evaluation of the use-after-release theorem on the trace that
creates a video source (handle `1`) and releases it: afterwards pulling,
re-releasing, or binding a processor to handle `1` all yield `undefined`. -/
theorem no_operation_after_release_w :
    cvSuperresFrameSourceNextFrame demoLib 1 [] ⟨[], [], 2⟩ = .undefined ∧
    cvSuperresFrameSourceRelease 1 ⟨[], [], 2⟩ = .undefined ∧
    cvSuperResolutionCreate demoLib 7 1 ⟨[], [], 2⟩ = .undefined :=
  no_operation_after_release demoLib [Op.createVideo "clip.avi" false] []
    1 [] 7 ⟨[], [], 2⟩ (by decide)

/-- C8: on a frame source holding a finite stream, with the wrapped
library's reference pulling behaviour, the sequence of repeated
`nextFrame` calls terminates: every call returns, and after exactly as
many calls as there are frames the source has reached the defined
end-of-stream behaviour — the stream is exhausted and every further call
returns the empty frame, leaving the source exhausted. -/
theorem nextFrame_finite_video_terminates (L : ExtLib) (h : Handle)
    (s : LibState) (d : FrameSourceData) (hL : L.pullFrame = stdPull)
    (hv : findIn h s.frameSources = some d) :
    ∃ s2, pullN L h d.frames.length s = .ok s2 ∧
      findIn h s2.frameSources = some ⟨[]⟩ ∧
      ∀ buf, ∃ s3, cvSuperresFrameSourceNextFrame L h buf s2 =
          .ok ([], s3) ∧ findIn h s3.frameSources = some ⟨[]⟩ := by
  obtain ⟨fr⟩ := d
  revert hv
  induction fr generalizing s with
  | nil =>
      intro hv
      refine ⟨s, rfl, hv, ?_⟩
      intro buf
      refine ⟨⟨setIn h ⟨[]⟩ s.frameSources, s.processors, s.nextHandle⟩,
        ?_, ?_⟩
      · simp only [cvSuperresFrameSourceNextFrame, hv, hL, stdPull]
      · show findIn h (setIn h ⟨[]⟩ s.frameSources) = some ⟨[]⟩
        rw [findIn_setIn_self, hv]
        rfl
  | cons f0 fr ih =>
      intro hv
      have hv2 : findIn h (setIn h ⟨fr⟩ s.frameSources) = some ⟨fr⟩ := by
        rw [findIn_setIn_self, hv]
        rfl
      obtain ⟨s2, hrun, hend, hlast⟩ :=
        ih ⟨setIn h ⟨fr⟩ s.frameSources, s.processors, s.nextHandle⟩ hv2
      refine ⟨s2, ?_, hend, hlast⟩
      show pullN L h (fr.length + 1) s = .ok s2
      have hstep : cvSuperresFrameSourceNextFrame L h [] s =
          .ok (f0, ⟨setIn h ⟨fr⟩ s.frameSources, s.processors,
                    s.nextHandle⟩) := by
        simp only [cvSuperresFrameSourceNextFrame, hv, hL, stdPull]
      simp only [pullN, hstep]
      exact hrun

/-- Closed evaluation of the termination theorem on `demoS1` (one
remaining frame): one pull exhausts the stream, and the exhausted source
is still there delivering empty frames. -/
theorem nextFrame_finite_video_terminates_w :
    pullN demoLib 1 1 demoS1 = .ok demoS2 ∧
    findIn 1 demoS2.frameSources = some ⟨[]⟩ := by
  obtain ⟨s2, h1, h2, _⟩ :=
    nextFrame_finite_video_terminates demoLib 1 demoS1 ⟨[[5]]⟩ rfl
      (by decide)
  have h1b : pullN demoLib 1 1 demoS1 = .ok s2 := h1
  have hconc : pullN demoLib 1 1 demoS1 = .ok demoS2 := by decide
  have hs : s2 = demoS2 := by
    rw [h1b] at hconc
    exact CallResult.ok.inj hconc
  subst hs
  exact ⟨h1b, h2⟩

/-- C5: handles follow exactly the lifecycle
created → pulled zero or more times → released, and create calls are
matched one-to-one by release calls.  Formally: (a) under any successful
call the lifecycle phase of a handle (fresh `0`, alive `1`,
consumed `2`) never moves backwards; (b) a frame pull succeeds only on a
handle that is currently alive; (c) a successful frame-source release
happens only on an alive handle and moves it to consumed, so at most one
release of a handle can ever succeed; (d) in every well-formed trace
from the initial state, the number of objects still alive plus the
release-style calls equals the create-style calls — in particular a
trace that ends with nothing alive contains exactly one release per
create, separately for frame sources and for processors. -/
theorem handle_lifecycle :
    (∀ (L : ExtLib) (op : Op) (s s2 : LibState) (h : Handle), WF s →
       step L op s = .ok s2 → fsPhase s h ≤ fsPhase s2 h) ∧
    (∀ (L : ExtLib) (h : Handle) (buf : Frame) (s : LibState)
       (r : Frame × LibState),
       cvSuperresFrameSourceNextFrame L h buf s = .ok r →
       fsPhase s h = 1) ∧
    (∀ (s : LibState) (h : Handle) (r : Handle × LibState), WF s →
       cvSuperresFrameSourceRelease h s = .ok r →
       fsPhase s h = 1 ∧ fsPhase r.2 h = 2) ∧
    (∀ (L : ExtLib) (ops : List Op) (s2 : LibState),
       runOps L ops initState = .ok s2 →
       s2.frameSources.length + countRelFS ops = countCreFS ops ∧
       s2.processors.length + countRelSR ops = countCreSR ops) := by
  refine ⟨?_, ?_, ?_, ?_⟩
  · intro L op s s2 h hwf hok
    by_cases hs : (findIn h s.frameSources).isSome
    · have hlt : h < s.nextHandle := by
        cases hfa : findIn h s.frameSources with
        | none => rw [hfa] at hs; exact absurd hs (by simp)
        | some a => exact (hwf.2.1 _ (mem_of_findIn h a _ hfa)).2
      have hlt2 : h < s2.nextHandle :=
        Nat.lt_of_lt_of_le hlt (step_nextHandle_mono L op s s2 hok)
      unfold fsPhase
      rw [if_pos hs]
      by_cases hs2 : (findIn h s2.frameSources).isSome
      · rw [if_pos hs2]
      · rw [if_neg hs2, if_pos hlt2]
        exact Nat.le_succ 1
    · by_cases hlt : h < s.nextHandle
      · have hdead : findIn h s.frameSources = none := by
          cases hfa : findIn h s.frameSources with
          | none => rfl
          | some a => rw [hfa] at hs; exact absurd (by simp) hs
        obtain ⟨hd2, hl2⟩ := step_preserves_deadFS L op s s2 h hdead hlt hok
        unfold fsPhase
        rw [if_neg hs, if_pos hlt, if_neg (by rw [hd2]; simp), if_pos hl2]
      · unfold fsPhase
        rw [if_neg hs, if_neg hlt]
        exact Nat.zero_le _
  · intro L h buf s r hok
    cases hfa : findIn h s.frameSources with
    | none =>
        simp only [cvSuperresFrameSourceNextFrame, hfa] at hok
        exact CallResult.noConfusion hok
    | some d => simp [fsPhase, hfa]
  · intro s h r hwf hok
    cases hfa : findIn h s.frameSources with
    | none =>
        simp only [cvSuperresFrameSourceRelease, hfa] at hok
        exact CallResult.noConfusion hok
    | some d =>
        simp only [cvSuperresFrameSourceRelease, hfa,
          CallResult.ok.injEq] at hok
        have hlt : h < s.nextHandle :=
          (hwf.2.1 _ (mem_of_findIn h d _ hfa)).2
        constructor
        · simp [fsPhase, hfa]
        · rw [← hok]
          simp [fsPhase, findIn_removeIn_self, hlt]
  · intro L ops s2 hrun
    obtain ⟨e1, e2⟩ := runOps_counts L ops initState s2 (by decide) hrun
    constructor
    · simpa [initState] using e1
    · simpa [initState] using e2

/-- Closed evaluation of the lifecycle theorem on the concrete trace
`demoTrace` (create a video source, bind a processor, release
everything): the final state is empty and the create and release counts
match exactly, for frame sources and for processors. -/
theorem handle_lifecycle_w :
    ((⟨[], [], 4⟩ : LibState)).frameSources.length + countRelFS demoTrace =
      countCreFS demoTrace ∧
    ((⟨[], [], 4⟩ : LibState)).processors.length + countRelSR demoTrace =
      countCreSR demoTrace :=
  handle_lifecycle.2.2.2 demoLib demoTrace ⟨[], [], 4⟩ (by decide)

end Superres
